import Mathlib

/-!
Verification of the MaxMind DB reader C extension (src/extension/maxminddb.c).

This file gives a shallow embedding of the bridging layer of the extension:
the address resolver (`ip_converter`), the lookup bridge (`get_record` and the
`Reader_*` methods), and the entry decoder (`from_entry_data_list`, `from_map`,
`from_array`, `from_uint128`).  The external database engine (libmaxminddb) and
the CPython runtime are external collaborators; the narrow slices of their
behaviour that the extension relies on (`MMDB_lookup_sockaddr` status codes,
`PyDict_SetItem` insertion semantics, `getaddrinfo` / `inet_ntop`) are modelled
either as explicit parameters or as small definitions whose doc comments state
the documented behaviour being modelled.

Machine integers are modelled as `Nat`/`Int` with explicit `% 2 ^ 64`
truncation where the C code performs `uint64_t` arithmetic.  The engine's
entry-data list (a forward-only linked list of tagged nodes) is modelled as a
`List EntryData`; the C cursor `*entry_data_list` pointing at a node is the
suffix of the list starting at that node, and the NULL cursor is `[]`.
-/

/-- The error surface of the extension.  Python exception classes are mapped to
constructors: `MaxMindDB_error` (maxminddb.errors.InvalidDatabaseError, the
spec's `CorruptDatabase`) to `corruptDatabase`; `PyExc_ValueError` on address
input to `invalidAddress`; the closed-reader `ValueError`/`IOError` to
`closedReader`; `PyExc_TypeError` to `typeError`; `PyExc_RuntimeError` to
`runtimeError`.  Two constructors mark behaviour that is not a Python
exception at all: `nullDeref` marks a C NULL-pointer dereference (a crash),
and `typeConfusion` marks a read of a non-pointer union member as a string
pointer (unspecified result); no theorem below relies on a `typeConfusion`
branch.  `fuelOut` is an artifact of the fuelled recursion in the model and is
unreachable for the fuel supplied by the top-level wrappers. -/
inductive Err where
  | corruptDatabase (msg : String)
  | invalidAddress (msg : String)
  | closedReader (msg : String)
  | typeError (msg : String)
  | runtimeError (msg : String)
  | noMemory
  | nullDeref
  | typeConfusion
  | fuelOut
  deriving DecidableEq, Repr

/-- One node of the engine's entry-data list (`MMDB_entry_data_list_s` minus
the `next` pointer, which is the list structure).  Each constructor is one
`MMDB_DATA_TYPE_*` tag together with the union member the decoder reads for
that tag.  String and bytes payloads are byte sequences in the data section;
they are modelled as the `String` they denote (the decoder does byte-for-byte
reproduction, not parsing).  `double`/`float` payloads are carried as opaque
bit patterns, since no claim concerns floating point values.  `uint128`
carries the 16-byte big-endian array of the byte-array build configuration
(`MMDB_UINT128_IS_BYTE_ARRAY`); the scalar configuration is modelled by the
separate function `from_uint128_scalar`.  `other` is any tag outside the
twelve handled ones (hitting the `default:` branch). -/
inductive EntryData where
  | map (size : Nat)
  | arr (size : Nat)
  | utf8 (s : String)
  | bytes (s : String)
  | double (bits : Nat)
  | float (bits : Nat)
  | uint16 (n : Nat)
  | uint32 (n : Nat)
  | boolean (b : Bool)
  | uint64 (n : Nat)
  | uint128 (bs : List Nat)
  | int32 (z : Int)
  | other (tag : Nat)
  deriving DecidableEq, Repr

/-- The host-native decoded value (`PyObject` results of the decoder):
dict, list, str, bytearray, float, int (PyLong, arbitrary precision), bool,
and `Py_None` (returned by `get_record` when no entry is found).
`float` carries the payload bit pattern; widening a C `float` payload to
`double` in `PyFloat_FromDouble` is value-preserving and is elided, since no
claim concerns floating point. -/
inductive PyValue where
  | dict (entries : List (String × PyValue))
  | list (xs : List PyValue)
  | str (s : String)
  | byteArray (s : String)
  | float (bits : Nat)
  | int (z : Int)
  | bool (b : Bool)
  | none

/-- Model of CPython `PyDict_SetItem` on a string-keyed dict, with the dict
represented as its ordered entry list.  CPython dicts preserve insertion
order; assigning to an existing key replaces its value in place and keeps the
key's original position.  (External collaborator: documented CPython
behaviour.) -/
def dictSetItem (d : List (String × PyValue)) (k : String) (v : PyValue) :
    List (String × PyValue) :=
  match d with
  | [] => [(k, v)]
  | (k', v') :: rest =>
    if k' = k then (k', v) :: rest else (k', v') :: dictSetItem rest k v

/-- The message used by `from_entry_data_list` for a NULL/exhausted cursor. -/
def corruptMsg : String :=
  "Error while looking up data. Your database may be corrupt or you have found a bug in libmaxminddb."

/-- The key read in `from_map` (maxminddb.c:528-530):
`PyUnicode_FromStringAndSize((*entry_data_list)->entry_data.utf8_string,
(*entry_data_list)->entry_data.data_size)`.  The type of the key node is NOT
inspected: the code reads the `utf8_string` union member of whatever node is
at the cursor.  For a `utf8` node this is its own payload.  For a `bytes`
node, `bytes` and `utf8_string` are both pointers into the data section laid
over each other in the union, and `data_size` is shared, so the read yields
the byte payload of the `bytes` node.  For every other tag the union member
read is not a pointer to the node's payload, so the resulting pointer is
unspecified; this is modelled by the `typeConfusion` marker.  (Payloads are
modelled as the `String` they denote; an invalid-UTF-8 payload would make
`PyUnicode_FromStringAndSize` fail with a host decoding error, which is
outside this payload representation and not relied on by any theorem.) -/
def readKeyString : EntryData → Except Err String
  | .utf8 s => .ok s
  | .bytes s => .ok s
  | _ => .error .typeConfusion

/-- Big-endian base-16 digit list of `n`, zero-padded to `k` digits
(model of `snprintf("%016PRIX64")`, with hex characters represented by their
digit values). -/
def hexDigits : Nat → Nat → List Nat
  | 0, _ => []
  | k + 1, n => hexDigits k (n / 16) ++ [n % 16]

/-- Base-16 parse of a digit list (model of `PyLong_FromString(num_str, NULL, 16)`
on the rendered hex string). -/
def parseHex (ds : List Nat) : Nat :=
  ds.foldl (fun a d => a * 16 + d) 0

/-- `from_uint128` (maxminddb.c:579-608) in the `MMDB_UINT128_IS_BYTE_ARRAY`
build configuration: fold the first 8 bytes into `high` and the last 8 into
`low` with `high = (high << 8) | byte` on `uint64_t` (the shift truncates
mod `2 ^ 64`), render `"%016X%016X"` and parse base 16. -/
def from_uint128_bytes (bs : List Nat) : Nat :=
  let high := (bs.take 8).foldl (fun h b => ((h <<< 8) % 2 ^ 64) ||| b) 0
  let low := (bs.drop 8).foldl (fun h b => ((h <<< 8) % 2 ^ 64) ||| b) 0
  parseHex (hexDigits 16 high ++ hexDigits 16 low)

/-- `from_uint128` (maxminddb.c:579-608) in the scalar (`unsigned __int128`)
build configuration: `high = uint128 >> 64`, `low = (uint64_t)uint128`
(both `uint64_t`, hence the `% 2 ^ 64`), then the same render-and-parse. -/
def from_uint128_scalar (v : Nat) : Nat :=
  let high := (v >>> 64) % 2 ^ 64
  let low := v % 2 ^ 64
  parseHex (hexDigits 16 high ++ hexDigits 16 low)

/-- The pending work of the decoder: `one` is a `from_entry_data_list` call
(decode the subtree at the cursor); `mapLoop i acc` is the `from_map` loop
(maxminddb.c:525-548) with `i` pairs left and `acc` the dict built so far;
`arrLoop i acc` is the `from_array` loop (maxminddb.c:566-575) with `i`
elements left and `acc` the list built so far. -/
inductive DecTask where
  | one
  | mapLoop (i : Nat) (acc : List (String × PyValue))
  | arrLoop (i : Nat) (acc : List PyValue)

/-- The entry decoder: `from_entry_data_list`, `from_map` and `from_array`
(maxminddb.c:462-577) as one fuelled function (the three C functions are
mutually recursive; `fuel` only bounds recursion depth — the top-level
wrappers supply enough fuel that `fuelOut` is unreachable, see
`decode_aux_encodes`).  The cursor convention is the C one: a call receives
the cursor at the node to decode and, on success, leaves it at the LAST node
it consumed (scalars do not advance; the loops advance before reading).

`.one` — `from_entry_data_list`: a NULL cursor is a `corruptDatabase` error;
otherwise the node's type tag is switched on, scalars are converted in place,
`map`/`arr` enter the corresponding loop, and an unhandled tag is a
`corruptDatabase` error naming the tag.

`.mapLoop` — each iteration advances the cursor (`*e = (*e)->next`), reads
the key at the new cursor WITHOUT a NULL check (the C loop condition checks
the pointer-to-cursor `entry_data_list`, which is never NULL, not the cursor
itself, so an exhausted list here is a NULL dereference — `nullDeref`),
advances again, decodes the value recursively (where `from_entry_data_list`
does NULL-check, giving `corruptDatabase`), and inserts with
`PyDict_SetItem`.  Any error return discards the dict built so far.

`.arrLoop` — each iteration advances the cursor and decodes one element
recursively; `PyList_SetItem` fills index `i` in order, modelled by
appending. -/
def decode_aux : Nat → DecTask → List EntryData → Except Err (PyValue × List EntryData)
  | fuel, .one, c =>
    match c with
    | [] => .error (.corruptDatabase corruptMsg)
    | e :: rest =>
      match fuel with
      | 0 => .error .fuelOut
      | fuel' + 1 =>
        match e with
        | .map size => decode_aux fuel' (.mapLoop size []) (e :: rest)
        | .arr size => decode_aux fuel' (.arrLoop size []) (e :: rest)
        | .utf8 s => .ok (.str s, e :: rest)
        | .bytes s => .ok (.byteArray s, e :: rest)
        | .double bits => .ok (.float bits, e :: rest)
        | .float bits => .ok (.float bits, e :: rest)
        | .uint16 n => .ok (.int n, e :: rest)
        | .uint32 n => .ok (.int n, e :: rest)
        | .boolean b => .ok (.bool b, e :: rest)
        | .uint64 n => .ok (.int n, e :: rest)
        | .uint128 bs => .ok (.int (from_uint128_bytes bs), e :: rest)
        | .int32 z => .ok (.int z, e :: rest)
        | .other tag => .error (.corruptDatabase ("Invalid data type arguments: " ++ toString tag))
  | fuel, .mapLoop i acc, c =>
    match i with
    | 0 => .ok (.dict acc, c)
    | i' + 1 =>
      match c with
      | [] => .error .nullDeref
      | _ :: c1 =>
        match c1 with
        | [] => .error .nullDeref
        | keyNode :: c2 =>
          match readKeyString keyNode with
          | .error e => .error e
          | .ok key =>
            match fuel with
            | 0 => .error .fuelOut
            | fuel' + 1 =>
              match decode_aux fuel' .one c2 with
              | .error e => .error e
              | .ok (v, c3) => decode_aux fuel' (.mapLoop i' (dictSetItem acc key v)) c3
  | fuel, .arrLoop i acc, c =>
    match i with
    | 0 => .ok (.list acc, c)
    | i' + 1 =>
      match c with
      | [] => .error .nullDeref
      | _ :: c1 =>
        match fuel with
        | 0 => .error .fuelOut
        | fuel' + 1 =>
          match decode_aux fuel' .one c1 with
          | .error e => .error e
          | .ok (v, c2) => decode_aux fuel' (.arrLoop i' (acc ++ [v])) c2

/-- Top-level decode of an entry-data list (`from_entry_data_list` as called
by `get_record` and `Reader_metadata`).  The fuel `2 * c.length + 2` exceeds
the recursion depth on every input actually consumed (each unit of fuel is
spent on a cursor that has strictly shrunk, and entering a container costs
one extra unit), see `decode_aux_encodes`. -/
def from_entry_data_list (c : List EntryData) : Except Err (PyValue × List EntryData) :=
  decode_aux (2 * c.length + 2) .one c

example : from_entry_data_list [] = .error (.corruptDatabase corruptMsg) := by rfl

example : from_entry_data_list [.map 1] = .error .nullDeref := by rfl

example :
    from_entry_data_list [.map 1, .utf8 "k"] = .error (.corruptDatabase corruptMsg) := by rfl

example :
    from_entry_data_list [.map 1, .bytes "a", .uint16 7] =
      .ok (.dict [("a", .int 7)], [.uint16 7]) := by rfl

example : from_uint128_bytes (List.replicate 15 0 ++ [1]) = 1 := by decide

/-- Address family of a `struct sockaddr` (`sa_family`): `AF_UNSPEC` (0),
`AF_INET`, `AF_INET6`. -/
inductive Family where
  | unspec
  | inet
  | inet6
  deriving DecidableEq, Repr

/-- The canonical socket address `ip_converter` fills into its
`struct sockaddr_storage` out-parameter: the family tag and the packed
address bytes (`sin_addr` / `sin6_addr`). -/
structure Sockaddr where
  family : Family
  addr : List Nat
  deriving DecidableEq, Repr

/-- The argument `get_record` receives for the address: a text address
(`PyUnicode`), an object exposing a packed `bytes` representation through its
`packed` attribute (an `ipaddress` object), or anything else. -/
inductive IpArg where
  | text (s : String)
  | packed (bytes : List Nat)
  | other

/-- Status of an engine call (`MMDB_SUCCESS`, the distinguished
`MMDB_IPV6_LOOKUP_IN_IPV4_DATABASE_ERROR`, or any other non-success code). -/
inductive MMDBStatus where
  | success
  | ipv6LookupInIpv4Database
  | other (code : Nat)
  deriving DecidableEq, Repr

/-- The external C library functions the bridging layer calls, as abstract
parameters: `gai` is `getaddrinfo` restricted to numeric hosts (`none` on
failure), `ntop` is `inet_ntop` as used by `format_sockaddr` (`none` on
failure), and `strerror` is `MMDB_strerror`. -/
structure Env where
  gai : String → Option Sockaddr
  ntop : Sockaddr → Option String
  strerror : MMDBStatus → String

/-- The slice of the open engine handle (`MMDB_s`) the bridge reads:
`mmdb->metadata.ip_version` (a `uint16_t`). -/
structure MMDB where
  ip_version : Nat
  deriving DecidableEq, Repr

/-- `Reader_obj`: the session owns an engine handle or `none` (closed), plus
the `closed` flag exposed to Python. -/
structure Reader where
  mmdb : Option MMDB
  closed : Bool
  deriving DecidableEq, Repr

/-- What the engine reports for one lookup: the out-parameter status of
`MMDB_lookup_sockaddr`, the `MMDB_lookup_result_s` fields the bridge reads
(`found_entry`, `netmask`), the return status of `MMDB_get_entry_data_list`,
and the entry-data list it produces. -/
structure EngineLookup where
  status : MMDBStatus
  found_entry : Bool
  netmask : Nat
  entryStatus : MMDBStatus
  entryList : List EntryData

/-- `ip_converter` (maxminddb.c:219-297).  Text input: reject embedded null
characters (`strlen(ipstr) != len`, a `TypeError`), then resolve with
`getaddrinfo(ipstr, NULL, {AF_UNSPEC, AI_NUMERICHOST})`; failure is a
`ValueError` naming the input.  Otherwise read the `packed` attribute: 16
bytes fill an `AF_INET6` address, 4 bytes an `AF_INET` one, and any other
length is a `ValueError`; an object with no usable `packed` attribute is a
`TypeError`.  (The unreachable `getaddrinfo succeeded but set no result`
branch is not modelled: `gai` returning an address is success.) -/
def ip_converter (env : Env) : IpArg → Except Err Sockaddr
  | .text s =>
    if s.toList.contains (Char.ofNat 0) then
      .error (.typeError "argument 1 contains an embedded null character")
    else
      match env.gai s with
      | some sa => .ok sa
      | Option.none =>
        .error (.invalidAddress ("'" ++ s ++ "' does not appear to be an IPv4 or IPv6 address."))
  | .packed bytes =>
    match bytes.length with
    | 16 => .ok ⟨.inet6, bytes⟩
    | 4 => .ok ⟨.inet, bytes⟩
    | _ => .error (.invalidAddress "argument 1 returned an unexpected packed length for address")
  | .other => .error (.typeError "argument 1 must be a string or ipaddress object")

/-- The prefix-length computation of `get_record` (maxminddb.c:180-185):
start from the raw `result.netmask` (a `uint16_t`, stored into an `int`), and
if the queried address is `AF_INET` while the database metadata declares
`ip_version == 6`, return `netmask - 96` when `netmask >= 96` and `0`
otherwise. -/
def corrected_prefix_len (family : Family) (ip_version : Nat) (netmask : Nat) : Int :=
  let p : Int := netmask
  if family = .inet ∧ ip_version = 6 then (if p ≥ 96 then p - 96 else 0) else p

/-- `get_record` (maxminddb.c:140-217).  Fail on a closed reader; convert the
address argument (`PyArg_ParseTuple` with `ip_converter`), rejecting a zero
`sa_family`; look up; on a non-success lookup status raise `ValueError` for
`MMDB_IPV6_LOOKUP_IN_IPV4_DATABASE_ERROR` and `MaxMindDB_error` otherwise,
with the message carrying the formatted address and `MMDB_strerror` (if
`inet_ntop` fails, the pending error is `format_sockaddr`'s `RuntimeError`);
compute the corrected prefix length; if no entry was found return `Py_None`
with that prefix length; otherwise fetch the entry-data list (an engine
failure here is `MaxMindDB_error` with its own message) and decode it.  The
C function returns the prefix length and writes the record through an
out-parameter; the model returns the pair. -/
def get_record (env : Env) (r : Reader) (g : EngineLookup) (arg : IpArg) :
    Except Err (PyValue × Int) :=
  match r.mmdb with
  | Option.none => .error (.closedReader "Attempt to read from a closed MaxMind DB.")
  | some mmdb =>
    match ip_converter env arg with
    | .error e => .error e
    | .ok sa =>
      if sa.family = .unspec then .error (.invalidAddress "Error parsing argument")
      else
        match g.status with
        | .success =>
          let prefix_len := corrected_prefix_len sa.family mmdb.ip_version g.netmask
          if g.found_entry = false then .ok (.none, prefix_len)
          else
            match g.entryStatus with
            | .success =>
              match from_entry_data_list g.entryList with
              | .error e => .error e
              | .ok (v, _) => .ok (v, prefix_len)
            | st =>
              match env.ntop sa with
              | some ipstr =>
                .error (.corruptDatabase
                  ("Error while looking up data for " ++ ipstr ++ ". " ++ env.strerror st))
              | Option.none => .error (.runtimeError "unable to format IP address")
        | st =>
          match env.ntop sa with
          | some ipstr =>
            .error
              ((if st = .ipv6LookupInIpv4Database then Err.invalidAddress else Err.corruptDatabase)
                ("Error looking up " ++ ipstr ++ ". " ++ env.strerror st))
          | Option.none => .error (.runtimeError "unable to format IP address")

/-- `Reader_get` (maxminddb.c:119-125): return only the record. -/
def Reader_get (env : Env) (r : Reader) (g : EngineLookup) (arg : IpArg) :
    Except Err PyValue :=
  (get_record env r g arg).map (fun p => p.1)

/-- `Reader_get_with_prefix_len` (maxminddb.c:127-138): return the
`(record, prefix_length)` tuple. -/
def Reader_get_with_prefix_len (env : Env) (r : Reader) (g : EngineLookup) (arg : IpArg) :
    Except Err (PyValue × Int) :=
  get_record env r g arg

/-- `Reader_close` (maxminddb.c:349-361): if a handle is present, release it
(`MMDB_close` + `free`) and clear the field; always set `closed` and succeed.
The second component counts how many handles this call released. -/
def Reader_close (r : Reader) : Reader × Nat :=
  match r.mmdb with
  | some _ => (⟨Option.none, true⟩, 1)
  | Option.none => ({ r with closed := true }, 0)

/-- `Reader_metadata` (maxminddb.c:316-347): fail on a closed reader
(`IOError`, same closed-reader message); decode the metadata entry-data list;
if decoding fails or does not produce a dict, fail with
`Error decoding metadata.`; otherwise build the `Metadata` object from the
dict (the keyword-argument field extraction of `Metadata_init` is the
identity on the dict contents and is modelled by returning the dict). -/
def Reader_metadata (r : Reader) (metaList : List EntryData) :
    Except Err (List (String × PyValue)) :=
  match r.mmdb with
  | Option.none => .error (.closedReader "Attempt to read from a closed MaxMind DB.")
  | some _ =>
    match from_entry_data_list metaList with
    | .ok (.dict d, _) => .ok d
    | _ => .error (.corruptDatabase "Error decoding metadata.")

/-- The big-endian value of a byte sequence (the mathematical reading of the
`high`/`low` halves in the spec). -/
def beBytes (bs : List Nat) : Nat :=
  bs.foldl (fun a b => a * 256 + b) 0

theorem parseHex_aux (k : Nat) :
    ∀ n acc, n < 16 ^ k →
      List.foldl (fun a d => a * 16 + d) acc (hexDigits k n) = acc * 16 ^ k + n := by
  induction k with
  | zero =>
    intro n acc hn
    interval_cases n
    simp [hexDigits]
  | succ k ih =>
    intro n acc hn
    have hdiv : n / 16 < 16 ^ k := by
      rw [Nat.div_lt_iff_lt_mul (by norm_num)]
      calc n < 16 ^ (k + 1) := hn
        _ = 16 ^ k * 16 := by rw [pow_succ]
    have hmod := Nat.div_add_mod n 16
    have hpow : (16 : Nat) ^ (k + 1) = 16 ^ k * 16 := by rw [pow_succ]
    simp only [hexDigits, List.foldl_append, ih (n / 16) acc hdiv, List.foldl_cons,
      List.foldl_nil]
    rw [hpow, ← mul_assoc]
    omega

theorem parseHex_split (h l : Nat) (hh : h < 2 ^ 64) (hl : l < 2 ^ 64) :
    parseHex (hexDigits 16 h ++ hexDigits 16 l) = h * 2 ^ 64 + l := by
  have h16 : (16 : Nat) ^ 16 = 2 ^ 64 := by norm_num
  unfold parseHex
  rw [List.foldl_append, parseHex_aux 16 h 0 (by omega), parseHex_aux 16 l (0 * 16 ^ 16 + h)
    (by omega)]
  omega

theorem be_fold_lt :
    ∀ (bs : List Nat), (∀ b ∈ bs, b < 256) → ∀ acc : Nat,
      List.foldl (fun a b => a * 256 + b) acc bs < (acc + 1) * 256 ^ bs.length := by
  intro bs
  induction bs with
  | nil => intro _ acc; simp only [List.foldl_nil, List.length_nil, pow_zero, mul_one]; omega
  | cons b bs ih =>
    intro hb acc
    have hb0 : b < 256 := hb b (List.mem_cons_self b bs)
    have hbs : ∀ x ∈ bs, x < 256 := fun x hx => hb x (List.mem_cons_of_mem b hx)
    have h1 : acc * 256 + b + 1 ≤ (acc + 1) * 256 := by omega
    calc List.foldl (fun a b => a * 256 + b) acc (b :: bs)
        = List.foldl (fun a b => a * 256 + b) (acc * 256 + b) bs := rfl
      _ < (acc * 256 + b + 1) * 256 ^ bs.length := ih hbs (acc * 256 + b)
      _ ≤ ((acc + 1) * 256) * 256 ^ bs.length := Nat.mul_le_mul_right _ h1
      _ = (acc + 1) * 256 ^ (b :: bs).length := by
          simp only [List.length_cons, pow_succ]
          ring

theorem be_fold_uint64 :
    ∀ (bs : List Nat), (∀ b ∈ bs, b < 256) → ∀ acc : Nat,
      (acc + 1) * 256 ^ bs.length ≤ 2 ^ 64 →
      List.foldl (fun h b => ((h <<< 8) % 2 ^ 64) ||| b) acc bs =
        List.foldl (fun a b => a * 256 + b) acc bs := by
  intro bs
  induction bs with
  | nil => intro _ acc _; rfl
  | cons b bs ih =>
    intro hb acc hacc
    have hb0 : b < 256 := hb b (List.mem_cons_self b bs)
    have hbs : ∀ x ∈ bs, x < 256 := fun x hx => hb x (List.mem_cons_of_mem b hx)
    have hlen : ((b :: bs).length : Nat) = bs.length + 1 := rfl
    have hpow : (256 : Nat) ^ (bs.length + 1) = 256 ^ bs.length * 256 := by rw [pow_succ]
    have hple : (1 : Nat) ≤ 256 ^ bs.length := Nat.one_le_pow _ _ (by norm_num)
    have hacc256 : (acc + 1) * 256 ≤ 2 ^ 64 := by
      calc (acc + 1) * 256 ≤ (acc + 1) * 256 ^ bs.length * 256 := by
            exact Nat.mul_le_mul_right 256 (Nat.le_mul_of_pos_right _ (by omega))
        _ = (acc + 1) * 256 ^ (b :: bs).length := by rw [hlen, hpow]; ring
        _ ≤ 2 ^ 64 := hacc
    have hshift : acc <<< 8 = acc * 256 := by
      rw [Nat.shiftLeft_eq]
    have hmodid : (acc * 256) % 2 ^ 64 = acc * 256 := by
      apply Nat.mod_eq_of_lt; omega
    have hor : (acc * 256) ||| b = acc * 256 + b := by
      have h256 : (b : Nat) < 2 ^ 8 := by
        have he : (2 : Nat) ^ 8 = 256 := by norm_num
        omega
      have := Nat.mul_add_lt_is_or h256 acc
      calc (acc * 256) ||| b = 2 ^ 8 * acc ||| b := by ring_nf
        _ = 2 ^ 8 * acc + b := (this).symm
        _ = acc * 256 + b := by ring
    have hstep : ((acc <<< 8) % 2 ^ 64) ||| b = acc * 256 + b := by
      rw [hshift, hmodid, hor]
    have hih : (acc * 256 + b + 1) * 256 ^ bs.length ≤ 2 ^ 64 := by
      calc (acc * 256 + b + 1) * 256 ^ bs.length
          ≤ ((acc + 1) * 256) * 256 ^ bs.length := Nat.mul_le_mul_right _ (by omega)
        _ = (acc + 1) * 256 ^ (b :: bs).length := by rw [hlen, hpow]; ring
        _ ≤ 2 ^ 64 := hacc
    calc List.foldl (fun h b => ((h <<< 8) % 2 ^ 64) ||| b) acc (b :: bs)
        = List.foldl (fun h b => ((h <<< 8) % 2 ^ 64) ||| b) (((acc <<< 8) % 2 ^ 64) ||| b) bs :=
          rfl
      _ = List.foldl (fun h b => ((h <<< 8) % 2 ^ 64) ||| b) (acc * 256 + b) bs := by
          rw [hstep]
      _ = List.foldl (fun a b => a * 256 + b) (acc * 256 + b) bs := ih hbs _ hih
      _ = List.foldl (fun a b => a * 256 + b) acc (b :: bs) := rfl

theorem from_uint128_bytes_eq (bs : List Nat) (hlen : bs.length = 16)
    (hb : ∀ b ∈ bs, b < 256) :
    from_uint128_bytes bs = beBytes (bs.take 8) * 2 ^ 64 + beBytes (bs.drop 8) := by
  have hbt : ∀ b ∈ bs.take 8, b < 256 := fun b hbm => hb b ((List.take_sublist 8 bs).subset hbm)
  have hbd : ∀ b ∈ bs.drop 8, b < 256 := fun b hbm => hb b ((List.drop_sublist 8 bs).subset hbm)
  have hlt : (bs.take 8).length = 8 := by
    rw [List.length_take]; omega
  have hld : (bs.drop 8).length = 8 := by
    rw [List.length_drop]; omega
  have hbound : (0 + 1) * 256 ^ (8 : Nat) ≤ 2 ^ 64 := by norm_num
  have hhigh : (bs.take 8).foldl (fun h b => ((h <<< 8) % 2 ^ 64) ||| b) 0 = beBytes (bs.take 8) :=
    be_fold_uint64 _ hbt 0 (by rw [hlt]; exact hbound)
  have hlow : (bs.drop 8).foldl (fun h b => ((h <<< 8) % 2 ^ 64) ||| b) 0 = beBytes (bs.drop 8) :=
    be_fold_uint64 _ hbd 0 (by rw [hld]; exact hbound)
  have hhlt : beBytes (bs.take 8) < 2 ^ 64 := by
    have := be_fold_lt (bs.take 8) hbt 0
    rw [hlt] at this
    unfold beBytes
    calc (bs.take 8).foldl (fun a b => a * 256 + b) 0 < (0 + 1) * 256 ^ (8 : Nat) := this
      _ ≤ 2 ^ 64 := hbound
  have hllt : beBytes (bs.drop 8) < 2 ^ 64 := by
    have := be_fold_lt (bs.drop 8) hbd 0
    rw [hld] at this
    unfold beBytes
    calc (bs.drop 8).foldl (fun a b => a * 256 + b) 0 < (0 + 1) * 256 ^ (8 : Nat) := this
      _ ≤ 2 ^ 64 := hbound
  unfold from_uint128_bytes
  rw [hhigh, hlow, parseHex_split _ _ hhlt hllt]

theorem from_uint128_scalar_eq (v : Nat) (hv : v < 2 ^ 128) :
    from_uint128_scalar v = (v / 2 ^ 64) * 2 ^ 64 + v % 2 ^ 64 ∧ from_uint128_scalar v = v := by
  have hdiv : v / 2 ^ 64 < 2 ^ 64 := by
    rw [Nat.div_lt_iff_lt_mul (by positivity)]
    calc v < 2 ^ 128 := hv
      _ = 2 ^ 64 * 2 ^ 64 := by norm_num
  have hshift : v >>> 64 = v / 2 ^ 64 := Nat.shiftRight_eq_div_pow v 64
  have hmodid : (v / 2 ^ 64) % 2 ^ 64 = v / 2 ^ 64 := Nat.mod_eq_of_lt hdiv
  have hmlt : v % 2 ^ 64 < 2 ^ 64 := Nat.mod_lt _ (by positivity)
  have h1 : from_uint128_scalar v = (v / 2 ^ 64) * 2 ^ 64 + v % 2 ^ 64 := by
    unfold from_uint128_scalar
    rw [hshift, hmodid, parseHex_split _ _ hdiv hmlt]
  refine ⟨h1, ?_⟩
  rw [h1]
  have := Nat.div_add_mod v (2 ^ 64)
  omega

/-- C3: decoding a UInt128 node yields `high * 2 ^ 64 + low` for both engine
representations — the big-endian 16-byte array (first 8 bytes are the high
half, last 8 the low half) and the genuine 128-bit scalar — and in the scalar
case this reproduces the input value exactly; in particular the byte array
`[0x00] * 15 ++ [0x01]` decodes to `1` and `[0xFF] * 16` decodes to
`2 ^ 128 - 1`. -/
theorem from_uint128_correct :
    (∀ bs : List Nat, bs.length = 16 → (∀ b ∈ bs, b < 256) →
      from_uint128_bytes bs = beBytes (bs.take 8) * 2 ^ 64 + beBytes (bs.drop 8)) ∧
    (∀ v : Nat, v < 2 ^ 128 →
      from_uint128_scalar v = (v / 2 ^ 64) * 2 ^ 64 + v % 2 ^ 64 ∧ from_uint128_scalar v = v) ∧
    from_uint128_bytes (List.replicate 15 0 ++ [1]) = 1 ∧
    from_uint128_bytes (List.replicate 16 255) = 2 ^ 128 - 1 :=
  ⟨from_uint128_bytes_eq, from_uint128_scalar_eq, by decide, by decide⟩

/-- Witness for `from_uint128_correct` at concrete inputs. -/
theorem from_uint128_correct_witness :
    from_uint128_bytes [0, 0, 0, 0, 0, 0, 0, 1, 0, 0, 0, 0, 0, 0, 0, 2] =
      beBytes [0, 0, 0, 0, 0, 0, 0, 1] * 2 ^ 64 + beBytes [0, 0, 0, 0, 0, 0, 0, 2] ∧
    from_uint128_scalar 12345 = 12345 := by
  constructor
  · exact from_uint128_correct.1 _ (by decide) (by decide)
  · exact (from_uint128_correct.2.1 12345 (by norm_num)).2

theorem corrected_prefix_len_nonneg (family : Family) (ipv : Nat) (raw : Nat) :
    0 ≤ corrected_prefix_len family ipv raw := by
  simp only [corrected_prefix_len]
  split_ifs <;> omega

/-- C4: the returned prefix length is `max(rawNetmask - 96, 0)` exactly when
the queried address is IPv4 and the database declares ip_version 6, and the
raw netmask unchanged for every other combination. -/
theorem corrected_prefix_len_eq (family : Family) (ipv : Nat) (raw : Nat) :
    corrected_prefix_len family ipv raw =
      if family = .inet ∧ ipv = 6 then max ((raw : Int) - 96) 0 else (raw : Int) := by
  simp only [corrected_prefix_len]
  split_ifs with h1 h2
  · rw [max_eq_left (by omega)]
  · rw [max_eq_right (by omega)]
  · rfl

/-- C5: on an open session, with a resolved address and an engine lookup that
succeeds but finds no entry, `get_record` succeeds with `Py_None` paired with
the corrected prefix length, and that prefix length is nonnegative. -/
theorem get_record_not_found (env : Env) (r : Reader) (g : EngineLookup) (arg : IpArg)
    (m : MMDB) (sa : Sockaddr)
    (hopen : r.mmdb = some m)
    (hconv : ip_converter env arg = .ok sa)
    (hfam : sa.family ≠ .unspec)
    (hst : g.status = .success)
    (hnf : g.found_entry = false) :
    get_record env r g arg =
      .ok (.none, corrected_prefix_len sa.family m.ip_version g.netmask) ∧
    0 ≤ corrected_prefix_len sa.family m.ip_version g.netmask := by
  refine ⟨?_, corrected_prefix_len_nonneg _ _ _⟩
  simp [get_record, hopen, hconv, hfam, hst, hnf]

/-- Witness for `get_record_not_found`. -/
theorem get_record_not_found_witness :
    get_record ⟨fun _ => Option.none, fun _ => some "x", fun _ => ""⟩
        ⟨some ⟨6⟩, false⟩ ⟨.success, false, 120, .success, []⟩ (.packed [1, 2, 3, 4]) =
      .ok (.none, corrected_prefix_len .inet 6 120) ∧
    0 ≤ corrected_prefix_len Family.inet 6 120 :=
  get_record_not_found _ _ _ _ ⟨6⟩ ⟨.inet, [1, 2, 3, 4]⟩ rfl rfl (by decide) rfl rfl

/-- C6: on an open session with a resolved address, a non-success engine
lookup status makes `get_record` fail: with `ValueError` (`InvalidAddress`)
when the status is `MMDB_IPV6_LOOKUP_IN_IPV4_DATABASE_ERROR`, and with
`MaxMindDB_error` (`CorruptDatabase`) for every other status, the message
carrying the formatted queried address and the engine's diagnostic string. -/
theorem get_record_engine_error (env : Env) (r : Reader) (g : EngineLookup) (arg : IpArg)
    (m : MMDB) (sa : Sockaddr) (ipstr : String)
    (hopen : r.mmdb = some m)
    (hconv : ip_converter env arg = .ok sa)
    (hfam : sa.family ≠ .unspec)
    (hst : g.status ≠ .success)
    (hntop : env.ntop sa = some ipstr) :
    (g.status = .ipv6LookupInIpv4Database →
      get_record env r g arg =
        .error (.invalidAddress
          ("Error looking up " ++ ipstr ++ ". " ++ env.strerror g.status))) ∧
    (g.status ≠ .ipv6LookupInIpv4Database →
      get_record env r g arg =
        .error (.corruptDatabase
          ("Error looking up " ++ ipstr ++ ". " ++ env.strerror g.status))) := by
  constructor
  · intro hv6
    cases hs : g.status with
    | success => exact absurd hs hst
    | ipv6LookupInIpv4Database =>
      simp [get_record, hopen, hconv, hfam, hs, hntop]
    | other code => rw [hs] at hv6; cases hv6
  · intro hnv6
    cases hs : g.status with
    | success => exact absurd hs hst
    | ipv6LookupInIpv4Database => exact absurd hs hnv6
    | other code =>
      simp [get_record, hopen, hconv, hfam, hs, hntop]

/-- Witness for `get_record_engine_error`. -/
theorem get_record_engine_error_witness :
    get_record ⟨fun _ => Option.none, fun _ => some "1.2.3.4", fun _ => "diag"⟩
        ⟨some ⟨4⟩, false⟩ ⟨.other 2, false, 0, .success, []⟩ (.packed [1, 2, 3, 4]) =
      .error (.corruptDatabase ("Error looking up " ++ "1.2.3.4" ++ ". " ++ "diag")) :=
  (get_record_engine_error _ _ _ _ ⟨4⟩ ⟨.inet, [1, 2, 3, 4]⟩ "1.2.3.4"
    rfl (by rfl) (by decide) (by decide) rfl).2 (by decide)

/-- C7: `close()` releases the engine handle exactly once on an open session,
closing again is a no-op that releases nothing and leaves the state unchanged,
and every subsequent `get`, `get_with_prefix_len` or `metadata` call on the
closed session fails with the closed-reader error. -/
theorem reader_close_lifecycle (r : Reader) (m : MMDB) (env : Env) (g : EngineLookup)
    (arg : IpArg) (metaList : List EntryData) (hopen : r.mmdb = some m) :
    (Reader_close r).2 = 1 ∧
    (Reader_close (Reader_close r).1).2 = 0 ∧
    (Reader_close (Reader_close r).1).1 = (Reader_close r).1 ∧
    get_record env (Reader_close r).1 g arg =
      .error (.closedReader "Attempt to read from a closed MaxMind DB.") ∧
    Reader_get env (Reader_close r).1 g arg =
      .error (.closedReader "Attempt to read from a closed MaxMind DB.") ∧
    Reader_get_with_prefix_len env (Reader_close r).1 g arg =
      .error (.closedReader "Attempt to read from a closed MaxMind DB.") ∧
    Reader_metadata (Reader_close r).1 metaList =
      .error (.closedReader "Attempt to read from a closed MaxMind DB.") := by
  simp [Reader_close, hopen, get_record, Reader_get, Reader_get_with_prefix_len,
    Reader_metadata, Except.map]

/-- Witness for `reader_close_lifecycle`. -/
theorem reader_close_lifecycle_witness :
    (Reader_close ⟨some ⟨4⟩, false⟩).2 = 1 ∧
    (Reader_close (Reader_close ⟨some ⟨4⟩, false⟩).1).2 = 0 ∧
    (Reader_close (Reader_close ⟨some ⟨4⟩, false⟩).1).1 = (Reader_close ⟨some ⟨4⟩, false⟩).1 ∧
    get_record ⟨fun _ => Option.none, fun _ => Option.none, fun _ => ""⟩
        (Reader_close ⟨some ⟨4⟩, false⟩).1 ⟨.success, false, 0, .success, []⟩ .other =
      .error (.closedReader "Attempt to read from a closed MaxMind DB.") ∧
    Reader_get ⟨fun _ => Option.none, fun _ => Option.none, fun _ => ""⟩
        (Reader_close ⟨some ⟨4⟩, false⟩).1 ⟨.success, false, 0, .success, []⟩ .other =
      .error (.closedReader "Attempt to read from a closed MaxMind DB.") ∧
    Reader_get_with_prefix_len ⟨fun _ => Option.none, fun _ => Option.none, fun _ => ""⟩
        (Reader_close ⟨some ⟨4⟩, false⟩).1 ⟨.success, false, 0, .success, []⟩ .other =
      .error (.closedReader "Attempt to read from a closed MaxMind DB.") ∧
    Reader_metadata (Reader_close ⟨some ⟨4⟩, false⟩).1 [] =
      .error (.closedReader "Attempt to read from a closed MaxMind DB.") :=
  reader_close_lifecycle ⟨some ⟨4⟩, false⟩ ⟨4⟩ _ _ _ _ rfl

/-- C9: packed-bytes address input resolves by length alone — 4 bytes give an
`AF_INET` canonical address, 16 bytes an `AF_INET6` one, and any other length
fails with `ValueError` (`InvalidAddress`). -/
theorem ip_converter_packed_correct (env : Env) (bytes : List Nat) :
    (bytes.length = 4 → ip_converter env (.packed bytes) = .ok ⟨.inet, bytes⟩) ∧
    (bytes.length = 16 → ip_converter env (.packed bytes) = .ok ⟨.inet6, bytes⟩) ∧
    (bytes.length ≠ 4 → bytes.length ≠ 16 →
      ip_converter env (.packed bytes) =
        .error (.invalidAddress "argument 1 returned an unexpected packed length for address")) := by
  refine ⟨?_, ?_, ?_⟩
  · intro h4
    simp only [ip_converter, h4]
  · intro h16
    simp only [ip_converter, h16]
  · intro h4 h16
    simp only [ip_converter]

/-- Witness for `ip_converter_packed_correct`. -/
theorem ip_converter_packed_correct_witness :
    ip_converter ⟨fun _ => Option.none, fun _ => Option.none, fun _ => ""⟩
        (.packed [1, 2, 3, 4, 5]) =
      .error (.invalidAddress "argument 1 returned an unexpected packed length for address") :=
  (ip_converter_packed_correct _ [1, 2, 3, 4, 5]).2.2 (by decide) (by decide)

/-- C1: evaluation of the decoder at exhausted-cursor positions.  At the
top level and at VALUE positions inside a Map (and at element positions
inside an Array) a premature list end is caught by `from_entry_data_list`'s
NULL check and fails with the `CorruptDatabase` message; but at a KEY
position inside a Map the loop of `from_map` dereferences the NULL cursor
(`(*entry_data_list)->entry_data`) without any check — the loop condition
tests the pointer-to-cursor `entry_data_list`, which is never NULL, instead
of the cursor `*entry_data_list` its own comment says may become NULL — so
decoding `[Map(size=1)]` crashes instead of failing with `CorruptDatabase`. -/
theorem from_map_exhausted_key_crashes :
    from_entry_data_list [.map 1] = .error .nullDeref ∧
    (∀ msg, from_entry_data_list [.map 1] ≠ .error (.corruptDatabase msg)) ∧
    from_entry_data_list [] = .error (.corruptDatabase corruptMsg) ∧
    from_entry_data_list [.map 1, .utf8 "k"] = .error (.corruptDatabase corruptMsg) ∧
    from_entry_data_list [.arr 1] = .error (.corruptDatabase corruptMsg) := by
  refine ⟨by rfl, ?_, by rfl, by rfl, by rfl⟩
  intro msg h
  rw [show from_entry_data_list [EntryData.map 1] = Except.error Err.nullDeref from rfl] at h
  simp at h

/-- C2 counterexample: a Map whose key node has type Bytes (not UTF8String)
does NOT fail with `CorruptDatabase` — `from_map` never checks the key
node's type, it reads the union's string pointer, which for a Bytes node is
the byte payload itself, so the decode succeeds with that payload as the
key. -/
theorem from_map_bytes_key_not_corrupt :
    from_entry_data_list [.map 1, .bytes "a", .uint16 7] =
      .ok (.dict [("a", .int 7)], [.uint16 7]) ∧
    ∀ msg, from_entry_data_list [.map 1, .bytes "a", .uint16 7] ≠
      .error (.corruptDatabase msg) := by
  refine ⟨by rfl, ?_⟩
  intro msg h
  rw [show from_entry_data_list [EntryData.map 1, EntryData.bytes "a", EntryData.uint16 7] =
    Except.ok (.dict [("a", .int 7)], [EntryData.uint16 7]) from rfl] at h
  simp at h

/-- C2 amended: `from_map` performs no type check on key nodes; it reads the
key node's payload through the union's string pointer, so a Bytes-typed key
node behaves exactly like a UTF8String key node with the same payload (and
decoding proceeds with that payload as the key — no `CorruptDatabase` is
raised for the non-string key). -/
theorem from_map_bytes_key_as_utf8 (fuel m : Nat) (s : String) (rest : List EntryData) :
    decode_aux fuel .one (.map (m + 1) :: .bytes s :: rest) =
      decode_aux fuel .one (.map (m + 1) :: .utf8 s :: rest) := by
  cases fuel with
  | zero => rfl
  | succ f =>
    simp only [decode_aux, readKeyString]

/-- C8: the container loops return a value only after decoding every one of
their declared elements — a Map loop that returns a dict has inserted exactly
`i` decoded (key, value) pairs into it, and an Array loop that returns a list
has appended exactly `i` decoded elements — and on any internal decode error
they return that error, so no partially populated container is ever handed
back (at any nesting depth, since the statement covers every cursor and every
loop state). -/
theorem container_decode_all_or_nothing :
    ∀ (fuel i : Nat) (acc : List (String × PyValue)) (acb : List PyValue)
      (c c₂ : List EntryData) (d : PyValue),
      (decode_aux fuel (.mapLoop i acc) c = .ok (d, c₂) →
        ∃ ps : List (String × PyValue), ps.length = i ∧
          d = .dict (List.foldl (fun a kv => dictSetItem a kv.1 kv.2) acc ps)) ∧
      (decode_aux fuel (.arrLoop i acb) c = .ok (d, c₂) →
        ∃ vs : List PyValue, vs.length = i ∧ d = .list (acb ++ vs)) := by
  intro fuel
  induction fuel with
  | zero =>
    intro i acc acb c c₂ d
    constructor
    · intro h
      cases i with
      | zero =>
        simp only [decode_aux] at h
        injection h with h1
        injection h1 with h2 h3
        exact ⟨[], rfl, h2.symm⟩
      | succ i' =>
        cases c with
        | nil => simp [decode_aux] at h
        | cons e0 c1 =>
          cases c1 with
          | nil => simp [decode_aux] at h
          | cons keyNode c2 =>
            cases hk : readKeyString keyNode with
            | error e => simp [decode_aux, hk] at h
            | ok key => simp [decode_aux, hk] at h
    · intro h
      cases i with
      | zero =>
        simp only [decode_aux] at h
        injection h with h1
        injection h1 with h2 h3
        exact ⟨[], rfl, by rw [← h2]; simp⟩
      | succ i' =>
        cases c with
        | nil => simp [decode_aux] at h
        | cons e0 c1 => simp [decode_aux] at h
  | succ f ih =>
    intro i acc acb c c₂ d
    constructor
    · intro h
      cases i with
      | zero =>
        simp only [decode_aux] at h
        injection h with h1
        injection h1 with h2 h3
        exact ⟨[], rfl, h2.symm⟩
      | succ i' =>
        cases c with
        | nil => simp [decode_aux] at h
        | cons e0 c1 =>
          cases c1 with
          | nil => simp [decode_aux] at h
          | cons keyNode c2 =>
            cases hk : readKeyString keyNode with
            | error e => simp [decode_aux, hk] at h
            | ok key =>
              cases hv : decode_aux f .one c2 with
              | error e => simp [decode_aux, hk, hv] at h
              | ok p =>
                obtain ⟨v, c3⟩ := p
                simp only [decode_aux, hk, hv] at h
                obtain ⟨ps, hlen, hd⟩ := (ih i' (dictSetItem acc key v) acb c3 c₂ d).1 h
                refine ⟨(key, v) :: ps, by simp [hlen], ?_⟩
                rw [hd]
                rfl
    · intro h
      cases i with
      | zero =>
        simp only [decode_aux] at h
        injection h with h1
        injection h1 with h2 h3
        exact ⟨[], rfl, by rw [← h2]; simp⟩
      | succ i' =>
        cases c with
        | nil => simp [decode_aux] at h
        | cons e0 c1 =>
          cases hv : decode_aux f .one c1 with
          | error e => simp [decode_aux, hv] at h
          | ok p =>
            obtain ⟨v, c2⟩ := p
            simp only [decode_aux, hv] at h
            obtain ⟨vs, hlen, hd⟩ := (ih i' acc (acb ++ [v]) c2 c₂ d).2 h
            refine ⟨v :: vs, by simp [hlen], ?_⟩
            rw [hd]
            simp

/-- Witness for `container_decode_all_or_nothing`. -/
theorem container_decode_all_or_nothing_witness :
    ∃ ps : List (String × PyValue), ps.length = 1 ∧
      PyValue.dict [("k", PyValue.int 3)] =
        .dict (List.foldl (fun a kv => dictSetItem a kv.1 kv.2) [] ps) :=
  (container_decode_all_or_nothing 4 1 [] [] [.map 1, .utf8 "k", .uint16 3]
    [.uint16 3] (.dict [("k", .int 3)])).1 (by rfl)

/-- The node a successful decode leaves the cursor on: the last node of `l`,
or `cur` (the node the cursor was on) when `l` is empty. -/
def lastD : EntryData → List EntryData → EntryData
  | cur, [] => cur
  | _, x :: l => lastD x l

theorem lastD_append (a : List EntryData) :
    ∀ (cur : EntryData) (b : List EntryData), lastD cur (a ++ b) = lastD (lastD cur a) b := by
  induction a with
  | nil => intro cur b; rfl
  | cons x a ih => intro cur b; exact ih x b

/-- The dict built by the `from_map` loop from its decoded (key, value) pairs
in order: a left fold of `PyDict_SetItem` starting from the fresh empty dict
of `PyDict_New`. -/
def insertPairs (ps : List (String × PyValue)) : List (String × PyValue) :=
  ps.foldl (fun d kv => dictSetItem d kv.1 kv.2) []

mutual
/-- `Encodes l v`: `l` is a well-formed pre-order serialization of one
subtree (the TaggedNode invariant of the spec: a Map node is immediately
followed by exactly `size` (key, value) pairs, each key a UTF8String node; an
Array node by exactly `size` element subtrees) and `v` is the host value it
denotes, with duplicate map keys collapsed by `PyDict_SetItem` order
(`insertPairs`). -/
inductive Encodes : List EntryData → PyValue → Prop where
  | utf8 (s : String) : Encodes [.utf8 s] (.str s)
  | bytes (s : String) : Encodes [.bytes s] (.byteArray s)
  | double (bits : Nat) : Encodes [.double bits] (.float bits)
  | float (bits : Nat) : Encodes [.float bits] (.float bits)
  | uint16 (n : Nat) : Encodes [.uint16 n] (.int n)
  | uint32 (n : Nat) : Encodes [.uint32 n] (.int n)
  | boolean (b : Bool) : Encodes [.boolean b] (.bool b)
  | uint64 (n : Nat) : Encodes [.uint64 n] (.int n)
  | uint128 (bs : List Nat) : Encodes [.uint128 bs] (.int (from_uint128_bytes bs))
  | int32 (z : Int) : Encodes [.int32 z] (.int z)
  | map (ls : List EntryData) (ps : List (String × PyValue)) :
      EncodesPairs ls ps → Encodes (.map ps.length :: ls) (.dict (insertPairs ps))
  | arr (ls : List EntryData) (vs : List PyValue) :
      EncodesElems ls vs → Encodes (.arr vs.length :: ls) (.list vs)

/-- `EncodesPairs ls ps`: `ls` is the concatenation of the (key, value) node
blocks of a well-formed map body, in order, and `ps` the decoded pairs. -/
inductive EncodesPairs : List EntryData → List (String × PyValue) → Prop where
  | nil : EncodesPairs [] []
  | cons (k : String) (lv : List EntryData) (v : PyValue) (lrest : List EntryData)
      (prest : List (String × PyValue)) :
      Encodes lv v → EncodesPairs lrest prest →
      EncodesPairs (.utf8 k :: (lv ++ lrest)) ((k, v) :: prest)

/-- `EncodesElems ls vs`: `ls` is the concatenation of the element subtree
blocks of a well-formed array body, in order, and `vs` the decoded elements. -/
inductive EncodesElems : List EntryData → List PyValue → Prop where
  | nil : EncodesElems [] []
  | cons (lv : List EntryData) (v : PyValue) (lrest : List EntryData) (vrest : List PyValue) :
      Encodes lv v → EncodesElems lrest vrest →
      EncodesElems (lv ++ lrest) (v :: vrest)
end

theorem encodes_ne_nil {l : List EntryData} {v : PyValue} (h : Encodes l v) :
    ∃ (e : EntryData) (l2 : List EntryData), l = e :: l2 := by
  cases h with
  | utf8 s => exact ⟨_, _, rfl⟩
  | bytes s => exact ⟨_, _, rfl⟩
  | double bits => exact ⟨_, _, rfl⟩
  | float bits => exact ⟨_, _, rfl⟩
  | uint16 n => exact ⟨_, _, rfl⟩
  | uint32 n => exact ⟨_, _, rfl⟩
  | boolean b => exact ⟨_, _, rfl⟩
  | uint64 n => exact ⟨_, _, rfl⟩
  | uint128 bs => exact ⟨_, _, rfl⟩
  | int32 z => exact ⟨_, _, rfl⟩
  | map ls ps hp => exact ⟨_, _, rfl⟩
  | arr ls vs he => exact ⟨_, _, rfl⟩

theorem decode_aux_pairs (ps : List (String × PyValue)) :
    ∀ (fuel : Nat),
      (∀ m, m ≤ fuel → ∀ (e : EntryData) (l2 rest : List EntryData) (v : PyValue),
        Encodes (e :: l2) v → 2 * (e :: l2).length ≤ m →
        decode_aux m .one (e :: (l2 ++ rest)) = .ok (v, lastD e l2 :: rest)) →
      ∀ (ls : List EntryData) (cur : EntryData) (acc : List (String × PyValue))
        (rest : List EntryData),
        EncodesPairs ls ps → 2 * ls.length < fuel →
        decode_aux fuel (.mapLoop ps.length acc) (cur :: (ls ++ rest)) =
          .ok (.dict (List.foldl (fun a kv => dictSetItem a kv.1 kv.2) acc ps),
               lastD cur ls :: rest) := by
  induction ps with
  | nil =>
    intro fuel ihA ls cur acc rest hEnc hfl
    cases hEnc
    simp [decode_aux, lastD]
  | cons kv ps' ih =>
    intro fuel ihA ls cur acc rest hEnc hfl
    obtain ⟨k, v⟩ := kv
    cases hEnc with
    | cons _ lv _ lrest prest hv hrest =>
      obtain ⟨e2, l2, hlv⟩ := encodes_ne_nil hv
      subst hlv
      cases fuel with
      | zero => simp only [List.length_cons, List.length_append] at hfl; omega
      | succ f =>
        simp only [List.length_cons, List.length_append] at hfl
        have hlvlen : 2 * (e2 :: l2).length ≤ f := by
          simp only [List.length_cons]
          omega
        have hval := ihA f (Nat.le_succ f) e2 l2 (lrest ++ rest) v hv hlvlen
        have hcont := ih f (fun m hm => ihA m (le_trans hm (Nat.le_succ f)))
          lrest (lastD e2 l2) (dictSetItem acc k v) rest hrest
          (by simp only [List.length_cons] at *; omega)
        simp only [List.length_cons, List.cons_append, List.append_assoc]
        simp only [decode_aux, readKeyString, List.cons_append, List.append_assoc, hval, hcont,
          List.foldl_cons]
        simp only [lastD, lastD_append]

theorem decode_aux_elems (vs : List PyValue) :
    ∀ (fuel : Nat),
      (∀ m, m ≤ fuel → ∀ (e : EntryData) (l2 rest : List EntryData) (v : PyValue),
        Encodes (e :: l2) v → 2 * (e :: l2).length ≤ m →
        decode_aux m .one (e :: (l2 ++ rest)) = .ok (v, lastD e l2 :: rest)) →
      ∀ (ls : List EntryData) (cur : EntryData) (acc : List PyValue)
        (rest : List EntryData),
        EncodesElems ls vs → 2 * ls.length < fuel →
        decode_aux fuel (.arrLoop vs.length acc) (cur :: (ls ++ rest)) =
          .ok (.list (acc ++ vs), lastD cur ls :: rest) := by
  induction vs with
  | nil =>
    intro fuel ihA ls cur acc rest hEnc hfl
    cases hEnc
    simp [decode_aux, lastD]
  | cons v vs' ih =>
    intro fuel ihA ls cur acc rest hEnc hfl
    cases hEnc with
    | cons lv _ lrest vrest hv hrest =>
      obtain ⟨e2, l2, hlv⟩ := encodes_ne_nil hv
      subst hlv
      cases fuel with
      | zero => simp only [List.length_cons, List.length_append] at hfl; omega
      | succ f =>
        simp only [List.length_cons, List.length_append] at hfl
        have hlvlen : 2 * (e2 :: l2).length ≤ f := by
          simp only [List.length_cons]
          omega
        have hval := ihA f (Nat.le_succ f) e2 l2 (lrest ++ rest) v hv hlvlen
        have hcont := ih f (fun m hm => ihA m (le_trans hm (Nat.le_succ f)))
          lrest (lastD e2 l2) (acc ++ [v]) rest hrest
          (by simp only [List.length_cons] at *; omega)
        simp only [List.length_cons, List.cons_append, List.append_assoc]
        simp only [decode_aux, List.cons_append, List.append_assoc, hval, hcont]
        simp only [lastD, lastD_append, List.append_assoc, List.cons_append, List.nil_append]

theorem decode_aux_encodes (fuel : Nat) :
    ∀ (e : EntryData) (l2 rest : List EntryData) (v : PyValue),
      Encodes (e :: l2) v → 2 * (e :: l2).length ≤ fuel →
      decode_aux fuel .one (e :: (l2 ++ rest)) = .ok (v, lastD e l2 :: rest) := by
  induction fuel using Nat.strong_induction_on with
  | _ fuel ihs =>
    intro e l2 rest v hEnc hfuel
    have ihA : ∀ m, m ≤ fuel - 1 → ∀ (e : EntryData) (l2 rest : List EntryData) (v : PyValue),
        Encodes (e :: l2) v → 2 * (e :: l2).length ≤ m →
        decode_aux m .one (e :: (l2 ++ rest)) = .ok (v, lastD e l2 :: rest) := by
      intro m hm
      have : m < fuel := by
        have h1 : (1 : Nat) ≤ fuel := by
          simp only [List.length_cons] at hfuel
          omega
        omega
      exact ihs m this
    cases hEnc with
    | utf8 s =>
      cases fuel with
      | zero => simp only [List.length_cons, List.length_nil] at hfuel; omega
      | succ f => rfl
    | bytes s =>
      cases fuel with
      | zero => simp only [List.length_cons, List.length_nil] at hfuel; omega
      | succ f => rfl
    | double bits =>
      cases fuel with
      | zero => simp only [List.length_cons, List.length_nil] at hfuel; omega
      | succ f => rfl
    | float bits =>
      cases fuel with
      | zero => simp only [List.length_cons, List.length_nil] at hfuel; omega
      | succ f => rfl
    | uint16 n =>
      cases fuel with
      | zero => simp only [List.length_cons, List.length_nil] at hfuel; omega
      | succ f => rfl
    | uint32 n =>
      cases fuel with
      | zero => simp only [List.length_cons, List.length_nil] at hfuel; omega
      | succ f => rfl
    | boolean b =>
      cases fuel with
      | zero => simp only [List.length_cons, List.length_nil] at hfuel; omega
      | succ f => rfl
    | uint64 n =>
      cases fuel with
      | zero => simp only [List.length_cons, List.length_nil] at hfuel; omega
      | succ f => rfl
    | uint128 bs =>
      cases fuel with
      | zero => simp only [List.length_cons, List.length_nil] at hfuel; omega
      | succ f => rfl
    | int32 z =>
      cases fuel with
      | zero => simp only [List.length_cons, List.length_nil] at hfuel; omega
      | succ f => rfl
    | map ls ps hp =>
      cases fuel with
      | zero => simp only [List.length_cons] at hfuel; omega
      | succ f =>
        simp only [List.length_cons] at hfuel
        have hfl : 2 * l2.length < f := by omega
        have hloop := decode_aux_pairs ps f
          (fun m hm => ihA m (by omega)) l2 (.map ps.length) [] rest hp hfl
        simp only [decode_aux]
        rw [hloop]
        rfl
    | arr ls vs he =>
      cases fuel with
      | zero => simp only [List.length_cons] at hfuel; omega
      | succ f =>
        simp only [List.length_cons] at hfuel
        have hfl : 2 * l2.length < f := by omega
        have hloop := decode_aux_elems vs f
          (fun m hm => ihA m (by omega)) l2 (.arr vs.length) [] rest he hfl
        simp only [decode_aux]
        rw [hloop]
        rfl

/-- Dict lookup (`PyDict_GetItem` on the ordered-entry-list representation). -/
def dictFind (d : List (String × PyValue)) (k : String) : Option PyValue :=
  match d with
  | [] => Option.none
  | (a, v) :: rest => if a = k then some v else dictFind rest k

/-- Refinement target, from the claim's words: the distinct keys in order of
their first occurrence. -/
def firstOccurrences : List String → List String
  | [] => []
  | k :: ks => k :: (firstOccurrences ks).filter (fun x => decide (x ≠ k))

/-- Refinement target, from the claim's words: the value decoded at the
key's last occurrence in the pair sequence. -/
def lastBound (k : String) (ps : List (String × PyValue)) : Option PyValue :=
  (ps.filterMap (fun kv => if kv.1 = k then some kv.2 else Option.none)).getLast?

/-- The keys set by the loop so far, with the `seen` prefix excluded: the
generalization of `firstOccurrences` the fold induction needs. -/
def firstOccAux : List String → List String → List String
  | _, [] => []
  | seen, k :: ks =>
    if k ∈ seen then firstOccAux seen ks else k :: firstOccAux (k :: seen) ks

theorem dictSetItem_keys (d : List (String × PyValue)) (k : String) (v : PyValue) :
    (dictSetItem d k v).map Prod.fst =
      if k ∈ d.map Prod.fst then d.map Prod.fst else d.map Prod.fst ++ [k] := by
  induction d with
  | nil => simp [dictSetItem]
  | cons kv d ih =>
    obtain ⟨a, b⟩ := kv
    by_cases h : a = k
    · subst h
      simp [dictSetItem]
    · simp only [dictSetItem, if_neg h, List.map_cons, ih]
      by_cases hm : k ∈ d.map Prod.fst
      · simp [hm, h, Ne.symm h]
      · simp [hm, h, Ne.symm h]

theorem dictFind_setItem (d : List (String × PyValue)) (k : String) (v : PyValue) (q : String) :
    dictFind (dictSetItem d k v) q = if q = k then some v else dictFind d q := by
  induction d with
  | nil =>
    by_cases h : q = k
    · subst h; simp [dictSetItem, dictFind]
    · simp [dictSetItem, dictFind, h, Ne.symm h]
  | cons kv d ih =>
    obtain ⟨a, b⟩ := kv
    by_cases h : a = k
    · subst h
      simp only [dictSetItem, if_pos rfl]
      by_cases hq : q = a
      · subst hq; simp [dictFind]
      · simp [dictFind, Ne.symm hq, hq]
    · simp only [dictSetItem, if_neg h]
      by_cases hq : q = k
      · subst hq
        have haq : ¬ a = q := fun hh => h hh
        simp [dictFind, haq, ih]
      · by_cases haq : a = q
        · subst haq; simp [dictFind, hq]
        · simp [dictFind, haq, ih, hq]

theorem getLast?_cons_or {α : Type} (b : α) (l : List α) :
    (b :: l).getLast? = l.getLast?.or (some b) := by
  induction l generalizing b with
  | nil => rfl
  | cons x xs ih =>
    rw [List.getLast?_cons_cons, ih x]
    cases hx : xs.getLast? with
    | none => rfl
    | some y => rfl

theorem lastBound_cons (k a : String) (b : PyValue) (ps : List (String × PyValue)) :
    lastBound k ((a, b) :: ps) =
      if a = k then (lastBound k ps).or (some b) else lastBound k ps := by
  unfold lastBound
  by_cases h : a = k
  · simp only [List.filterMap_cons, h, if_pos rfl]
    exact getLast?_cons_or b _
  · simp only [List.filterMap_cons, if_neg h]

theorem insertFold_find (ps : List (String × PyValue)) :
    ∀ (d : List (String × PyValue)) (k : String),
      dictFind (ps.foldl (fun a kv => dictSetItem a kv.1 kv.2) d) k =
        (lastBound k ps).or (dictFind d k) := by
  induction ps with
  | nil =>
    intro d k
    simp [lastBound, Option.none_or]
  | cons kv ps ih =>
    intro d k
    obtain ⟨a, b⟩ := kv
    rw [List.foldl_cons, ih (dictSetItem d a b) k, dictFind_setItem, lastBound_cons]
    by_cases h : a = k
    · simp only [h, if_pos rfl]
      cases hl : lastBound k ps with
      | none => rfl
      | some x => rfl
    · have h2 : ¬ k = a := fun hh => h hh.symm
      simp only [if_neg h, if_neg h2]

theorem firstOccAux_congr (l : List String) :
    ∀ (s s2 : List String), (∀ x, x ∈ s ↔ x ∈ s2) → firstOccAux s l = firstOccAux s2 l := by
  induction l with
  | nil => intro s s2 _; rfl
  | cons k ks ih =>
    intro s s2 hs
    simp only [firstOccAux]
    by_cases hk : k ∈ s
    · rw [if_pos hk, if_pos ((hs k).mp hk), ih s s2 hs]
    · rw [if_neg hk, if_neg (fun hh => hk ((hs k).mpr hh))]
      rw [ih (k :: s) (k :: s2) (fun x => by simp only [List.mem_cons]; rw [hs x])]

theorem insertFold_keys (ps : List (String × PyValue)) :
    ∀ (d : List (String × PyValue)),
      ((ps.foldl (fun a kv => dictSetItem a kv.1 kv.2) d).map Prod.fst) =
        d.map Prod.fst ++ firstOccAux (d.map Prod.fst) (ps.map Prod.fst) := by
  induction ps with
  | nil => intro d; simp [firstOccAux]
  | cons kv ps ih =>
    intro d
    obtain ⟨k, v⟩ := kv
    rw [List.foldl_cons, ih (dictSetItem d k v)]
    simp only [List.map_cons, firstOccAux, dictSetItem_keys]
    by_cases hm : k ∈ d.map Prod.fst
    · rw [if_pos hm, if_pos hm]
    · rw [if_neg hm, if_neg hm, List.append_assoc, List.singleton_append]
      have hiff : ∀ x, x ∈ d.map Prod.fst ++ [k] ↔ x ∈ k :: d.map Prod.fst := by
        intro x
        simp only [List.mem_append, List.mem_singleton, List.mem_cons]
        tauto
      rw [firstOccAux_congr _ _ _ hiff]

theorem firstOccAux_filter (l : List String) :
    ∀ (s : List String),
      firstOccAux s l = (firstOccurrences l).filter (fun x => decide (x ∉ s)) := by
  induction l with
  | nil => intro s; rfl
  | cons k ks ih =>
    intro s
    simp only [firstOccAux, firstOccurrences, List.filter_cons]
    by_cases hk : k ∈ s
    · rw [if_pos hk]
      have hd : (decide (k ∉ s)) = false := by simp [hk]
      rw [hd]
      simp only [Bool.false_eq_true, if_neg (by simp [hk] : ¬ (decide (k ∉ s) = true))]
      rw [ih s, List.filter_filter]
      refine List.filter_congr ?_
      intro x hx
      by_cases hxk : x = k
      · subst hxk
        simp [hk]
      · simp [hxk]
    · rw [if_neg hk]
      have hd : (decide (k ∉ s)) = true := by simp [hk]
      rw [if_pos hd]
      rw [ih (k :: s), List.filter_filter]
      have : (firstOccurrences ks).filter (fun x => decide (x ∉ k :: s)) =
          (firstOccurrences ks).filter (fun x => decide (x ∉ s) && decide (x ≠ k)) := by
        refine List.filter_congr ?_
        intro x hx
        simp only [List.mem_cons, decide_not]
        by_cases hxk : x = k
        · subst hxk; simp
        · by_cases hxs : x ∈ s <;> simp [hxk, hxs]
      rw [this]

theorem firstOccurrences_nodup (l : List String) : (firstOccurrences l).Nodup := by
  induction l with
  | nil => simp [firstOccurrences]
  | cons k ks ih =>
    simp only [firstOccurrences]
    refine List.Nodup.cons ?_ (List.Nodup.filter _ ih)
    intro hmem
    have := (List.mem_filter.mp hmem).2
    simp at this

/-- C10: decoding a well-formed Map body (`EncodesPairs`) containing
duplicate keys succeeds, and the resulting dict is the `PyDict_SetItem` fold
of the decoded pairs, in which each distinct key appears exactly once
(`Nodup`), in first-occurrence decode order (`firstOccurrences`), bound to
the value of its last occurrence (`lastBound`). -/
theorem from_map_duplicate_keys (ls : List EntryData) (ps : List (String × PyValue))
    (rest : List EntryData) (hp : EncodesPairs ls ps)
    (_hdup : ¬ (ps.map Prod.fst).Nodup) :
    from_entry_data_list ((.map ps.length :: ls) ++ rest) =
      .ok (.dict (insertPairs ps), lastD (.map ps.length) ls :: rest) ∧
    ((insertPairs ps).map Prod.fst).Nodup ∧
    (insertPairs ps).map Prod.fst = firstOccurrences (ps.map Prod.fst) ∧
    ∀ k, dictFind (insertPairs ps) k = lastBound k ps := by
  have hkeys : (insertPairs ps).map Prod.fst = firstOccurrences (ps.map Prod.fst) := by
    unfold insertPairs
    rw [insertFold_keys ps []]
    simp only [List.map_nil, List.nil_append]
    rw [firstOccAux_filter]
    refine Eq.trans (List.filter_congr ?_) (List.filter_true _)
    intro x _
    simp
  refine ⟨?_, ?_, hkeys, ?_⟩
  · unfold from_entry_data_list
    rw [List.cons_append]
    exact decode_aux_encodes _ _ _ _ _ (Encodes.map ls ps hp)
      (by simp only [List.length_cons, List.length_append]; omega)
  · rw [hkeys]
    exact firstOccurrences_nodup _
  · intro k
    unfold insertPairs
    rw [insertFold_find ps [] k]
    simp [dictFind, Option.or_none]

/-- Witness for `from_map_duplicate_keys`: the map
`{size 2: "a" -> 1, "a" -> 2}` decodes to the single-entry dict
`{"a": 2}`. -/
theorem from_map_duplicate_keys_witness :
    from_entry_data_list [.map 2, .utf8 "a", .uint16 1, .utf8 "a", .uint16 2] =
      .ok (.dict (insertPairs [("a", .int 1), ("a", .int 2)]),
           lastD (.map 2) [.utf8 "a", .uint16 1, .utf8 "a", .uint16 2] :: []) :=
  (from_map_duplicate_keys [.utf8 "a", .uint16 1, .utf8 "a", .uint16 2]
    [("a", .int 1), ("a", .int 2)] []
    (EncodesPairs.cons "a" [.uint16 1] (.int 1) [.utf8 "a", .uint16 2] [("a", .int 2)]
      (Encodes.uint16 1)
      (EncodesPairs.cons "a" [.uint16 2] (.int 2) [] [] (Encodes.uint16 2) EncodesPairs.nil))
    (by decide)).1
